import Mathlib

/-!
Shallow embedding of the `c-stash` single-header container library
(`src/stash.h`): a growable byte array (`stash_arr`), an open-addressed
hash table keyed by `u32` (`stash_umap`), and a slot registry with
stable identifiers (`stash_reg`).

Modelling conventions:
* machine integers (`size_t`, `uint32_t`) are `Nat`, with explicit
  `% 2^32` where 32-bit overflow matters (the hash finalizer);
* allocation (`STASH_MALLOC` / `STASH_REALLOC`) is modelled as always
  succeeding; freshly allocated bytes are modelled as `0`;
* raw byte buffers are `List Nat`; `memcpy` / `memmove` / `memset`
  become list surgery on those buffers;
* out-parameters become returned `Option` values; a `NULL` pointer
  argument becomes `none`;
* the status codes of the `STASH_*` enum become the inductive
  `StashStatus`.
-/

/-- The status enum of `stash.h` (`STASH_ERROR_KEY_NOT_FOUND` .. `STASH_KEY_EXISTS`). -/
inductive StashStatus where
  | keyNotFound
  | outOfBounds
  | outOfMemory
  | success
  | empty
  | keyExists
deriving DecidableEq, Repr

/-- Numeric value of each status code, as in the C enum. -/
def StashStatus.toInt : StashStatus → Int
  | .keyNotFound => -3
  | .outOfBounds => -2
  | .outOfMemory => -1
  | .success => 0
  | .empty => 1
  | .keyExists => 2

/-- `memcpy(dst + off, src, n)` on a byte buffer: replace the bytes
at positions `[off, off + n)` of `dst` with the first `n` bytes of `src`. -/
def memcpyBytes (dst : List Nat) (off : Nat) (src : List Nat) (n : Nat) : List Nat :=
  dst.take off ++ src.take n ++ dst.drop (off + n)

/-- `memmove(buf + dst, buf + src, n)` inside a single buffer; the
overlap-safe semantics copies from the original buffer contents. -/
def memmoveBytes (buf : List Nat) (dst src n : Nat) : List Nat :=
  memcpyBytes buf dst (buf.drop src) n

/-- `memset(buf + off, 0, n)` on a byte buffer. -/
def memsetBytes (buf : List Nat) (off n : Nat) : List Nat :=
  buf.take off ++ List.replicate n 0 ++ buf.drop (off + n)

/-- `u_stash_next_po2_u64`: the bit-smearing next-power-of-two rounding.
For `x = 0` it returns `1`; for a power of two it returns `2 * x`;
otherwise it rounds up to the next power of two. -/
def u_stash_next_po2_u64 (x : Nat) : Nat :=
  if x = 0 then 1
  else if x &&& (x - 1) = 0 then x <<< 1
  else
    let y0 := x - 1
    let y1 := y0 ||| (y0 >>> 1)
    let y2 := y1 ||| (y1 >>> 2)
    let y3 := y2 ||| (y2 >>> 4)
    let y4 := y3 ||| (y3 >>> 8)
    let y5 := y4 ||| (y4 >>> 16)
    let y6 := y5 ||| (y5 >>> 32)
    y6 + 1

/-- The `stash_arr` record: a raw byte buffer of `capacity * elem_size`
bytes, of which the first `count * elem_size` are live. -/
structure stash_arr where
  data : List Nat
  count : Nat
  capacity : Nat
  elem_size : Nat
deriving DecidableEq, Repr

/-- `stash_arr_reserve`: no-op when the capacity already suffices,
otherwise reallocate; the fresh region is uninitialized in C and is
modelled as zero bytes (no theorem below depends on those bytes). -/
def stash_arr_reserve (array : stash_arr) (newCapacity : Nat) : StashStatus × stash_arr :=
  if array.capacity ≥ newCapacity then (.success, array)
  else (.success, { array with
    data := array.data ++ List.replicate ((newCapacity - array.capacity) * array.elem_size) 0,
    capacity := newCapacity })

/-- `stash_arr_insert`: rejects `index > count`; grows when
`count + count' > capacity`, reusing the local variable `newSize` for
the rounded capacity exactly as the C code does; shifts the tail right
and copies the new elements in; finally assigns `count = newSize`. -/
def stash_arr_insert (array : stash_arr) (index : Nat) (elements : List Nat)
    (count : Nat) : StashStatus × stash_arr :=
  if index > array.count then (.outOfBounds, array)
  else
    let newSize := array.count + count
    let grown :=
      if newSize > array.capacity then
        (u_stash_next_po2_u64 newSize, (stash_arr_reserve array (u_stash_next_po2_u64 newSize)).2)
      else (newSize, array)
    let a := grown.2
    let es := a.elem_size
    let d1 := memmoveBytes a.data ((index + count) * es) (index * es) ((a.count - index) * es)
    let d2 := memcpyBytes d1 (index * es) elements (count * es)
    (.success, { a with data := d2, count := grown.1 })

/-- `stash_arr_push_at`: rejects `index >= count`; grows when full;
then performs the C code's `memmove` whose destination and source are
both `data + index * elem_size`, writes the element (or zero bytes for
a `NULL` element) at `index`, and increments `count`. -/
def stash_arr_push_at (array : stash_arr) (index : Nat)
    (element : Option (List Nat)) : StashStatus × stash_arr :=
  if index ≥ array.count then (.outOfBounds, array)
  else
    let a :=
      if array.count ≥ array.capacity then
        (stash_arr_reserve array (u_stash_next_po2_u64 (array.count + 1))).2
      else array
    let es := a.elem_size
    let d1 := memmoveBytes a.data (index * es) (index * es) ((a.count - index) * es)
    let d2 :=
      match element with
      | some e => memcpyBytes d1 (index * es) e es
      | none => memsetBytes d1 (index * es) es
    (.success, { a with data := d2, count := a.count + 1 })

/-- `stash_arr_copy`: returns the zero record when
`count * elem_size == 0`, otherwise a tightly sized bytewise copy of
the live region. -/
def stash_arr_copy (src : stash_arr) : stash_arr :=
  let size := src.count * src.elem_size
  if size = 0 then { data := [], count := 0, capacity := 0, elem_size := 0 }
  else { data := src.data.take size, count := src.count,
         capacity := src.count, elem_size := src.elem_size }

/-- `stash_arr_compare`: false when counts or element sizes differ,
otherwise `memcmp` of the first `count * elem_size` bytes. -/
def stash_arr_compare (a b : stash_arr) : Bool :=
  if a.count ≠ b.count ∨ a.elem_size ≠ b.elem_size then false
  else a.data.take (a.count * a.elem_size) == b.data.take (a.count * a.elem_size)

/-- The `stash_it` cursor: three raw pointers, modelled as addresses
with `0` playing the role of `NULL`. -/
structure stash_it where
  curr : Nat
  prev : Nat
  next : Nat
deriving DecidableEq, Repr

/-- The fields of a `stash_arr` read by the iterator functions: the
address of `data`, the element count, and the element size. -/
structure stash_arr_view where
  data : Nat
  count : Nat
  elem_size : Nat
deriving DecidableEq, Repr

/-- `stash_arr_end`: cursor on the last element; `prev` is the
second-to-last element when `count > 1`, else `NULL`. -/
def stash_arr_end (array : stash_arr_view) : stash_it :=
  if array.count = 0 then ⟨0, 0, 0⟩
  else
    let c := array.data + (array.count - 1) * array.elem_size
    if array.count = 1 then ⟨c, 0, 0⟩
    else ⟨c, c - array.elem_size, 0⟩

/-- `stash_arr_next`, translated statement by statement: when
`it->next == NULL` the code saves `curr` into `prev` and clears `curr`
but, unlike `stash_umap_next` and `stash_reg_next`, does not return;
the following unconditional block then runs on the cleared cursor. -/
def stash_arr_next (array : stash_arr_view) (it : stash_it) : stash_it :=
  let it1 := if it.next = 0 then { it with prev := it.curr, curr := 0 } else it
  let prH := it1.curr
  let it2 := { it1 with curr := it1.next, prev := prH }
  let nx := it2.curr + array.elem_size
  let nx2 := if nx ≥ array.data + array.count * array.elem_size then 0 else nx
  { it2 with next := nx2 }

/-- C2: the code path of `stash_arr_insert` that triggers growth reuses
the variable `newSize` for the next-power-of-two capacity and then
assigns it to `count`: inserting 1 element at index 0 of a full array
with `count = capacity = 2` returns `OK` but sets `count` to `4`,
not to `2 + 1`. -/
theorem arr_insert_growth_sets_count_to_capacity :
    (stash_arr_insert ⟨[1, 2, 3, 4, 5, 6, 7, 8], 2, 2, 4⟩ 0 [9, 9, 9, 9] 1).1
        = StashStatus.success ∧
    (stash_arr_insert ⟨[1, 2, 3, 4, 5, 6, 7, 8], 2, 2, 4⟩ 0 [9, 9, 9, 9] 1).2.count = 4 ∧
    (stash_arr_insert ⟨[1, 2, 3, 4, 5, 6, 7, 8], 2, 2, 4⟩ 0 [9, 9, 9, 9] 1).2.count ≠ 2 + 1 := by
  decide

/-- C3: `stash_arr_push_at` computes identical `destination` and
`source` pointers for its `memmove`, so nothing is shifted: pushing
`99` at index 0 of the array `[10, 20]` (elem_size 1, capacity 4)
leaves `20` in slot 1 instead of the shifted `10`. -/
theorem arr_push_at_does_not_shift :
    (stash_arr_push_at ⟨[10, 20, 0, 0], 2, 4, 1⟩ 0 (some [99])).2.data = [99, 20, 0, 0] ∧
    (stash_arr_push_at ⟨[10, 20, 0, 0], 2, 4, 1⟩ 0 (some [99])).2.data.get? 1 ≠ some 10 := by
  decide

/-- C6: advancing from the last element: `stash_arr_next` lacks the
early `return` of its siblings, so after clearing `curr` it overwrites
`prev` with the cleared `curr` (`NULL`) and recomputes `next` as
`NULL + elem_size`: for a one-element array at address 1000 with
elem_size 4, the result is `⟨0, 0, 4⟩`, and `prev` does not retain the
last element's address 1000. -/
theorem arr_next_at_end_loses_prev :
    stash_arr_next ⟨1000, 1, 4⟩ (stash_arr_end ⟨1000, 1, 4⟩) = ⟨0, 0, 4⟩ ∧
    (stash_arr_next ⟨1000, 1, 4⟩ (stash_arr_end ⟨1000, 1, 4⟩)).prev ≠ 1000 := by
  decide

/-- C7 counterexample: for a valid empty array (`count = 0`,
`capacity = 1`, `elem_size = 4`), `stash_arr_copy` returns the zero
record whose `elem_size` is 0, so `stash_arr_compare` of the copy with
the source is `false`. -/
theorem arr_copy_compare_empty_counterexample :
    stash_arr_compare (stash_arr_copy ⟨[0, 0, 0, 0], 0, 1, 4⟩) ⟨[0, 0, 0, 0], 0, 1, 4⟩
      = false := by
  decide

/-- C7 (amended): for every array with `count > 0` and `elem_size > 0`,
`copy` produces `count == capacity == src.count`, the same `elem_size`,
a bytewise copy of the live region, and `compare(copy(src), src)` holds. -/
theorem arr_copy_compare_nonempty (src : stash_arr)
    (hc : 0 < src.count) (he : 0 < src.elem_size) :
    stash_arr_compare (stash_arr_copy src) src = true ∧
    (stash_arr_copy src).count = src.count ∧
    (stash_arr_copy src).capacity = src.count ∧
    (stash_arr_copy src).elem_size = src.elem_size ∧
    (stash_arr_copy src).data = src.data.take (src.count * src.elem_size) := by
  have hsize : src.count * src.elem_size ≠ 0 := by positivity
  have hcopy : stash_arr_copy src =
      { data := src.data.take (src.count * src.elem_size), count := src.count,
        capacity := src.count, elem_size := src.elem_size } := by
    unfold stash_arr_copy
    simp [hsize]
  rw [hcopy]
  refine ⟨?_, rfl, rfl, rfl, rfl⟩
  unfold stash_arr_compare
  simp [List.take_take]

/-- Witness for the amended C7 theorem at a concrete one-element array. -/
theorem arr_copy_compare_nonempty_witness :
    stash_arr_compare (stash_arr_copy ⟨[1, 2, 3, 4], 1, 1, 4⟩) ⟨[1, 2, 3, 4], 1, 1, 4⟩
      = true :=
  (arr_copy_compare_nonempty ⟨[1, 2, 3, 4], 1, 1, 4⟩ (by decide) (by decide)).1

/-- `u_stash_umap_hash_u32`: the Murmur3-style finalizer on a `u32`
key followed by reduction modulo the bucket count; the two multiplies
wrap modulo `2^32`. -/
def u_stash_umap_hash_u32 (key : Nat) (capacity : Nat) : Nat :=
  let k0 := key % 4294967296
  let k1 := k0 ^^^ (k0 >>> 16)
  let k2 := (k1 * 0x85ebca6b) % 4294967296
  let k3 := k2 ^^^ (k2 >>> 13)
  let k4 := (k3 * 0xc2b2ae35) % 4294967296
  let k5 := k4 ^^^ (k4 >>> 16)
  k5 % capacity

/-- A `stash_umap_entry`: key, separately allocated value buffer
(`none` models a `NULL` value pointer), and occupancy flag. -/
structure stash_umap_entry where
  key : Nat
  value : Option (List Nat)
  occupied : Bool
deriving DecidableEq, Repr

/-- The `stash_umap` record. `entries` models the first
`buckets.count` slots of the bucket array (the only ones the probing
code can reach through `stash_arr_at`), and `cap` models
`buckets.capacity`. -/
structure stash_umap where
  entries : List stash_umap_entry
  cap : Nat
  value_size : Nat
  count : Nat
deriving DecidableEq, Repr

/-- `stash_umap_is_valid`: validity of the bucket array. Under the
allocation-success convention, `data != NULL` and `capacity > 0` and
`elem_size > 0` collapse to `capacity > 0`. -/
def stash_umap_is_valid (table : stash_umap) : Bool :=
  decide (0 < table.cap)

/-- Result of `u_stash_find_free_slot`: a free index, `-2` (the key
already exists), or `-1` (invalid table or full table). -/
inductive SlotSearch where
  | free (i : Nat)
  | keyFound
  | full
deriving DecidableEq, Repr

/-- The probing loop of `u_stash_find_free_slot`: starting at `idx`,
return the first unoccupied slot unless the key is seen first; the
do-while loop makes exactly `capacity` probes (the fuel). -/
def u_stash_find_free_slot_aux (entries : List stash_umap_entry) (capacity key : Nat) :
    Nat → Nat → SlotSearch
  | 0, _ => .full
  | fuel + 1, idx =>
    match entries.get? idx with
    | some e =>
      if e.occupied = false then .free idx
      else if e.key = key then .keyFound
      else u_stash_find_free_slot_aux entries capacity key fuel ((idx + 1) % capacity)
    | none => u_stash_find_free_slot_aux entries capacity key fuel ((idx + 1) % capacity)

/-- `u_stash_find_free_slot`: guard on validity and an empty bucket
count, then probe from the home slot. -/
def u_stash_find_free_slot (table : stash_umap) (key : Nat) : SlotSearch :=
  if ¬ stash_umap_is_valid table = true ∨ table.entries.length = 0 then .full
  else
    u_stash_find_free_slot_aux table.entries table.entries.length key
      table.entries.length
      (u_stash_umap_hash_u32 key table.entries.length)

/-- The probing loop of `u_stash_find_entry_index`: starting at `idx`,
return the index holding the key, or `none` upon reaching an
unoccupied slot or exhausting the table. -/
def u_stash_find_entry_index_aux (entries : List stash_umap_entry) (capacity key : Nat) :
    Nat → Nat → Option Nat
  | 0, _ => none
  | fuel + 1, idx =>
    match entries.get? idx with
    | some e =>
      if e.occupied = true ∧ e.key = key then some idx
      else if e.occupied = false then none
      else u_stash_find_entry_index_aux entries capacity key fuel ((idx + 1) % capacity)
    | none => u_stash_find_entry_index_aux entries capacity key fuel ((idx + 1) % capacity)

/-- `u_stash_find_entry_index`: guard on validity and an empty bucket
count, then probe from the home slot. -/
def u_stash_find_entry_index (table : stash_umap) (key : Nat) : Option Nat :=
  if ¬ stash_umap_is_valid table = true ∨ table.entries.length = 0 then none
  else
    u_stash_find_entry_index_aux table.entries table.entries.length key
      table.entries.length
      (u_stash_umap_hash_u32 key table.entries.length)

/-- `stash_umap_create`: allocates `max(initialCapacity, 16)` bucket
slots but `stash_arr_resize` initializes (and counts) only
`initialCapacity` of them, each set to the zeroed default entry. -/
def stash_umap_create (initialCapacity value_size : Nat) : stash_umap :=
  let actual := if initialCapacity > 0 then initialCapacity else 16
  { entries := List.replicate initialCapacity { key := 0, value := none, occupied := false },
    cap := actual, value_size := value_size, count := 0 }

/-- Effect of `stash_arr_reserve(&buckets, n)` on the bucket capacity:
unchanged when already at least `n`, else `n`. -/
def u_stash_bucket_reserve (cap n : Nat) : Nat :=
  if cap ≥ n then cap else n

/-- The pre-insertion growth step of `stash_umap_insert`: when
`buckets.count + 1 >= buckets.capacity`, reserve the bucket array to
the next power of two; only the capacity changes, never the entries. -/
def u_stash_umap_grow (table : stash_umap) : stash_umap :=
  if table.entries.length + 1 ≥ table.cap then
    { table with cap := (u_stash_bucket_reserve table.cap
        (u_stash_next_po2_u64 (table.entries.length + 1))) }
  else table

/-- `stash_umap_insert`: validity check, the silent pre-insertion
growth of the bucket capacity (never of the bucket count), then free
slot search; on success the value bytes are copied into a fresh
buffer of `value_size` bytes and the slot is filled. -/
def stash_umap_insert (table : stash_umap) (key : Nat) (value : List Nat) :
    StashStatus × stash_umap :=
  if ¬ stash_umap_is_valid table = true then (.outOfMemory, table)
  else
    match u_stash_find_free_slot (u_stash_umap_grow table) key with
    | .keyFound => (.keyExists, u_stash_umap_grow table)
    | .full => (.outOfMemory, u_stash_umap_grow table)
    | .free i =>
      (.success, { u_stash_umap_grow table with
        entries := (u_stash_umap_grow table).entries.set i
          { key := key, value := some (value.take (u_stash_umap_grow table).value_size),
            occupied := true },
        count := (u_stash_umap_grow table).count + 1 })

/-- `stash_umap_get` with a non-`NULL` out pointer, which receives
`value_size` bytes from the stored buffer on a hit. -/
def stash_umap_get (table : stash_umap) (key : Nat) :
    StashStatus × Option (List Nat) :=
  if ¬ stash_umap_is_valid table = true then (.keyNotFound, none)
  else
    match u_stash_find_entry_index table key with
    | none => (.keyNotFound, none)
    | some i =>
      match table.entries.get? i with
      | some e => (.success, e.value.map (fun v => v.take table.value_size))
      | none => (.success, none)

/-- `stash_umap_remove`: on a hit, copy the value out, free the
buffer, and mark the slot unoccupied. Returns (status, copied-out
value, updated table). -/
def stash_umap_remove (table : stash_umap) (key : Nat) :
    StashStatus × Option (List Nat) × stash_umap :=
  if ¬ stash_umap_is_valid table = true then (.keyNotFound, none, table)
  else
    match u_stash_find_entry_index table key with
    | none => (.keyNotFound, none, table)
    | some i =>
      match table.entries.get? i with
      | some e =>
        (.success, e.value.map (fun v => v.take table.value_size),
          { table with
            entries := table.entries.set i { e with occupied := false, value := none },
            count := table.count - 1 })
      | none => (.success, none, table)

/-- `stash_umap_contains`. -/
def stash_umap_contains (table : stash_umap) (key : Nat) : Bool :=
  if ¬ stash_umap_is_valid table = true then false
  else (u_stash_find_entry_index table key).isSome

theorem find_free_slot_aux_free_spec (entries : List stash_umap_entry) (cap key : Nat) :
    ∀ fuel idx i, u_stash_find_free_slot_aux entries cap key fuel idx = .free i →
      ∃ e, entries.get? i = some e ∧ e.occupied = false := by
  intro fuel
  induction fuel with
  | zero => intro idx i h; simp [u_stash_find_free_slot_aux] at h
  | succ n ih =>
    intro idx i h
    simp only [u_stash_find_free_slot_aux] at h
    split at h
    next e heq =>
      split_ifs at h with h1 h2
      · rw [SlotSearch.free.injEq] at h
        exact ⟨e, h ▸ heq, h1⟩
      · exact ih _ _ h
    next heq =>
      exact ih _ _ h

theorem find_entry_index_aux_some_spec (entries : List stash_umap_entry) (cap key : Nat) :
    ∀ fuel idx i, u_stash_find_entry_index_aux entries cap key fuel idx = some i →
      ∃ e, entries.get? i = some e ∧ e.occupied = true ∧ e.key = key := by
  intro fuel
  induction fuel with
  | zero => intro idx i h; simp [u_stash_find_entry_index_aux] at h
  | succ n ih =>
    intro idx i h
    simp only [u_stash_find_entry_index_aux] at h
    split at h
    next e heq =>
      split_ifs at h with h1 h2
      · rw [Option.some_inj] at h
        exact ⟨e, h ▸ heq, h1.1, h1.2⟩
      · exact ih _ _ h
    next heq =>
      exact ih _ _ h

/-- Scanning after a successful insertion: if the free-slot probe from
`idx` found slot `i`, then the lookup probe from the same start over
the table updated at `i` with an occupied entry whose key matches
returns exactly `i`. -/
theorem find_entry_index_aux_after_insert (entries : List stash_umap_entry) (cap key : Nat)
    (e' : stash_umap_entry) (hocc : e'.occupied = true) (hkey : e'.key = key) :
    ∀ fuel idx i, u_stash_find_free_slot_aux entries cap key fuel idx = .free i →
      u_stash_find_entry_index_aux (entries.set i e') cap key fuel idx = some i := by
  intro fuel
  induction fuel with
  | zero => intro idx i h; simp [u_stash_find_free_slot_aux] at h
  | succ n ih =>
    intro idx i h
    simp only [u_stash_find_free_slot_aux] at h
    simp only [u_stash_find_entry_index_aux]
    split at h
    next e heq =>
      split_ifs at h with h1 h2
      · rw [SlotSearch.free.injEq] at h
        subst h
        have hlt : idx < entries.length := by
          rw [List.get?_eq_some] at heq
          exact heq.1
        rw [List.get?_set_eq_of_lt e' hlt]
        simp [hocc, hkey]
      · have hne : i ≠ idx := by
          intro hcontra
          obtain ⟨e2, hget2, hocc2⟩ := find_free_slot_aux_free_spec entries cap key _ _ _ h
          rw [hcontra, heq] at hget2
          rw [Option.some_inj] at hget2
          rw [← hget2] at hocc2
          rw [Bool.not_eq_false] at h1
          rw [h1] at hocc2
          exact absurd hocc2 (by decide)
        rw [List.get?_set_ne e' entries hne]
        rw [heq]
        have hocc1 : e.occupied = true := by rw [← Bool.not_eq_false]; exact h1
        simp only [hocc1, h2, and_false, if_false, ite_false]
        simp only [if_neg (by simp : ¬ (true = false))]
        exact ih _ _ h
    next heq =>
      have hnone : (entries.set i e').get? idx = none := by
        rw [List.get?_eq_none] at heq ⊢
        simpa using heq
      rw [hnone]
      exact ih _ _ h

/-- Scanning after a removal: if the lookup probe from `idx` found the
key at slot `i`, the same probe over the table updated at `i` with an
unoccupied entry misses. -/
theorem find_entry_index_aux_after_remove (entries : List stash_umap_entry) (cap key : Nat)
    (e' : stash_umap_entry) (hocc : e'.occupied = false) :
    ∀ fuel idx i, u_stash_find_entry_index_aux entries cap key fuel idx = some i →
      u_stash_find_entry_index_aux (entries.set i e') cap key fuel idx = none := by
  intro fuel
  induction fuel with
  | zero => intro idx i h; simp [u_stash_find_entry_index_aux] at h
  | succ n ih =>
    intro idx i h
    simp only [u_stash_find_entry_index_aux] at h
    simp only [u_stash_find_entry_index_aux]
    split at h
    next e heq =>
      split_ifs at h with h1 h2
      · rw [Option.some_inj] at h
        subst h
        have hlt : idx < entries.length := by
          rw [List.get?_eq_some] at heq
          exact heq.1
        rw [List.get?_set_eq_of_lt e' hlt]
        simp [hocc]
      · have hne : i ≠ idx := by
          intro hcontra
          obtain ⟨e2, hget2, hocc2, hkey2⟩ := find_entry_index_aux_some_spec entries cap key _ _ _ h
          rw [hcontra, heq] at hget2
          rw [Option.some_inj] at hget2
          rw [← hget2] at hocc2 hkey2
          exact h1 ⟨hocc2, hkey2⟩
        rw [List.get?_set_ne e' entries hne]
        rw [heq]
        simp only [if_neg h1, if_neg h2]
        exact ih _ _ h
    next heq =>
      have hnone : (entries.set i e').get? idx = none := by
        rw [List.get?_eq_none] at heq ⊢
        simpa using heq
      rw [hnone]
      exact ih _ _ h

/-- In a fully occupied table holding no entry with the probed key,
the free-slot search exhausts its fuel and reports a full table. -/
theorem find_free_slot_aux_full (entries : List stash_umap_entry) (cap key : Nat)
    (hocc : ∀ e ∈ entries, e.occupied = true)
    (hkey : ∀ e ∈ entries, e.key ≠ key) :
    ∀ fuel idx, u_stash_find_free_slot_aux entries cap key fuel idx = .full := by
  intro fuel
  induction fuel with
  | zero => intro idx; simp [u_stash_find_free_slot_aux]
  | succ n ih =>
    intro idx
    simp only [u_stash_find_free_slot_aux]
    split
    next e heq =>
      have hmem : e ∈ entries := List.get?_mem heq
      rw [hocc e hmem]
      simp only [if_neg (by simp : ¬ (true = false))]
      rw [if_neg (hkey e hmem)]
      exact ih _
    next heq =>
      exact ih _

/-- In a fully occupied table, a key stored at any slot is reached by
the linear probe within `cap` steps from any start `idx < cap`. -/
theorem find_free_slot_aux_key_found (entries : List stash_umap_entry) (cap key : Nat)
    (hcap : entries.length = cap)
    (hocc : ∀ e ∈ entries, e.occupied = true) :
    ∀ fuel idx, idx < cap →
      (∃ j, j < fuel ∧ ∃ e, entries.get? ((idx + j) % cap) = some e ∧ e.key = key) →
      u_stash_find_free_slot_aux entries cap key fuel idx = .keyFound := by
  intro fuel
  induction fuel with
  | zero =>
    intro idx _ hex
    obtain ⟨j, hj, _⟩ := hex
    omega
  | succ n ih =>
    intro idx hidx hex
    have hcap0 : 0 < cap := by omega
    have hidxlen : idx < entries.length := by omega
    simp only [u_stash_find_free_slot_aux]
    split
    next e0 hget0 =>
      have hocc0 : e0.occupied = true := hocc e0 (List.get?_mem hget0)
      rw [hocc0]
      simp only [if_neg (by simp : ¬ (true = false))]
      by_cases hk0 : e0.key = key
      · rw [if_pos hk0]
      · rw [if_neg hk0]
        obtain ⟨j, hj, e, hget, hkey⟩ := hex
        have hjne : j ≠ 0 := by
          intro hj0
          rw [hj0, Nat.add_zero, Nat.mod_eq_of_lt hidx, hget0] at hget
          rw [Option.some_inj] at hget
          exact hk0 (hget ▸ hkey)
        obtain ⟨j', rfl⟩ : ∃ j', j = j' + 1 := ⟨j - 1, by omega⟩
        refine ih ((idx + 1) % cap) (Nat.mod_lt _ hcap0) ⟨j', by omega, e, ?_, hkey⟩
        rw [Nat.mod_add_mod]
        have harith : idx + 1 + j' = idx + (j' + 1) := by omega
        rw [harith]
        exact hget
    next hget0 =>
      rw [List.get?_eq_none] at hget0
      omega

theorem u_stash_umap_grow_entries (t : stash_umap) :
    (u_stash_umap_grow t).entries = t.entries := by
  rw [u_stash_umap_grow]; split <;> rfl

theorem u_stash_umap_grow_value_size (t : stash_umap) :
    (u_stash_umap_grow t).value_size = t.value_size := by
  rw [u_stash_umap_grow]; split <;> rfl

theorem u_stash_umap_grow_cap_le (t : stash_umap) :
    t.cap ≤ (u_stash_umap_grow t).cap := by
  rw [u_stash_umap_grow]
  split
  · show t.cap ≤ u_stash_bucket_reserve t.cap _
    rw [u_stash_bucket_reserve]
    split <;> omega
  · exact le_refl _

theorem u_stash_umap_grow_valid (t : stash_umap)
    (hval : stash_umap_is_valid t = true) :
    stash_umap_is_valid (u_stash_umap_grow t) = true := by
  rw [stash_umap_is_valid, decide_eq_true_iff] at hval ⊢
  exact lt_of_lt_of_le hval (u_stash_umap_grow_cap_le t)

/-- After a successful free-slot search on a valid table, looking the
key up in the table updated at the found slot yields that slot's
value, namely the first `value_size` bytes of the inserted buffer. -/
theorem umap_get_after_insert_core (t : stash_umap) (key : Nat) (v : List Nat) (i : Nat)
    (hval : stash_umap_is_valid t = true)
    (hfind : u_stash_find_free_slot t key = .free i) :
    stash_umap_get
        { t with
          entries := (t.entries.set i ⟨key, some (v.take t.value_size), true⟩),
          count := t.count + 1 } key
      = (.success, some (v.take t.value_size)) := by
  have hguard : ¬ (¬ stash_umap_is_valid t = true ∨ t.entries.length = 0) := by
    intro hg
    rw [u_stash_find_free_slot, if_pos hg] at hfind
    cases hfind
  rw [u_stash_find_free_slot, if_neg hguard] at hfind
  push_neg at hguard
  obtain ⟨-, hlen⟩ := hguard
  obtain ⟨e0, hget0, -⟩ :=
    find_free_slot_aux_free_spec t.entries t.entries.length key _ _ _ hfind
  have hlt : i < t.entries.length := by
    rw [List.get?_eq_some] at hget0
    exact hget0.1
  have hvalN : stash_umap_is_valid
      { t with
        entries := (t.entries.set i ⟨key, some (v.take t.value_size), true⟩),
        count := t.count + 1 } = true := hval
  have hfei : u_stash_find_entry_index
      { t with
        entries := (t.entries.set i ⟨key, some (v.take t.value_size), true⟩),
        count := t.count + 1 } key = some i := by
    rw [u_stash_find_entry_index]
    rw [if_neg (by
      push_neg
      refine ⟨hvalN, ?_⟩
      simpa [List.length_set] using hlen)]
    simp only [List.length_set]
    exact find_entry_index_aux_after_insert t.entries t.entries.length key _ rfl rfl _ _ _ hfind
  have hget' : (t.entries.set i ⟨key, some (v.take t.value_size), true⟩).get? i =
      some ⟨key, some (v.take t.value_size), true⟩ :=
    List.get?_set_eq_of_lt _ hlt
  rw [stash_umap_get, if_neg (not_not_intro hvalN)]
  simp only [hfei, hget']
  simp [List.take_take]

/-- After a successful lookup on a valid table, marking the found slot
unoccupied makes a subsequent lookup of the same key miss. -/
theorem umap_contains_after_remove_core (t : stash_umap) (key i : Nat)
    (e : stash_umap_entry)
    (hval : stash_umap_is_valid t = true)
    (hfei : u_stash_find_entry_index t key = some i) :
    stash_umap_contains
        { t with
          entries := (t.entries.set i ⟨e.key, none, false⟩),
          count := t.count - 1 } key = false := by
  have hguard : ¬ (¬ stash_umap_is_valid t = true ∨ t.entries.length = 0) := by
    intro hg
    rw [u_stash_find_entry_index, if_pos hg] at hfei
    cases hfei
  rw [u_stash_find_entry_index, if_neg hguard] at hfei
  push_neg at hguard
  obtain ⟨-, hlen⟩ := hguard
  have hvalN : stash_umap_is_valid
      { t with
        entries := (t.entries.set i ⟨e.key, none, false⟩),
        count := t.count - 1 } = true := hval
  rw [stash_umap_contains, if_neg (not_not_intro hvalN)]
  rw [u_stash_find_entry_index]
  rw [if_neg (by
    push_neg
    refine ⟨hvalN, ?_⟩
    simpa [List.length_set] using hlen)]
  simp only [List.length_set]
  rw [find_entry_index_aux_after_remove t.entries t.entries.length key _ rfl _ _ _ hfei]
  rfl

/-- C1: for every IntMap, key and value (of `value_size` bytes): a
successful `insert(k, v)` makes `get(k)` succeed and copy out exactly
`v`, and a successful `remove(k)` makes `contains(k)` false. -/
theorem umap_insert_get_remove_roundtrip (m : stash_umap) (k : Nat) (v : List Nat)
    (hv : v.length = m.value_size) :
    ((stash_umap_insert m k v).1 = StashStatus.success →
      stash_umap_get (stash_umap_insert m k v).2 k = (StashStatus.success, some v)) ∧
    ((stash_umap_remove m k).1 = StashStatus.success →
      stash_umap_contains (stash_umap_remove m k).2.2 k = false) := by
  constructor
  · intro h
    by_cases hval : stash_umap_is_valid m = true
    · rw [stash_umap_insert, if_neg (not_not_intro hval)] at h ⊢
      cases hfind : u_stash_find_free_slot (u_stash_umap_grow m) k with
      | keyFound => rw [hfind] at h; simp at h
      | full => rw [hfind] at h; simp at h
      | free i =>
        simp only [hfind]
        have hres := umap_get_after_insert_core (u_stash_umap_grow m) k v i
          (u_stash_umap_grow_valid m hval) hfind
        rw [hres]
        have hvs : (u_stash_umap_grow m).value_size = v.length := by
          rw [u_stash_umap_grow_value_size, ← hv]
        rw [hvs, List.take_length]
    · rw [stash_umap_insert, if_pos hval] at h
      simp at h
  · intro h
    by_cases hval : stash_umap_is_valid m = true
    · rw [stash_umap_remove, if_neg (not_not_intro hval)] at h ⊢
      cases hfei : u_stash_find_entry_index m k with
      | none => rw [hfei] at h; simp at h
      | some i =>
        simp only [hfei] at h ⊢
        cases hget : m.entries.get? i with
        | none =>
          exfalso
          have hguard : ¬ (¬ stash_umap_is_valid m = true ∨ m.entries.length = 0) := by
            intro hg
            rw [u_stash_find_entry_index, if_pos hg] at hfei
            cases hfei
          rw [u_stash_find_entry_index, if_neg hguard] at hfei
          obtain ⟨e0, hget0, -, -⟩ :=
            find_entry_index_aux_some_spec m.entries m.entries.length k _ _ _ hfei
          rw [hget] at hget0
          cases hget0
        | some e =>
          simp only [hget]
          exact umap_contains_after_remove_core m k i e hval hfei
    · rw [stash_umap_remove, if_pos hval] at h
      simp at h

/-- Witness for C1 on a concrete map: create with 4 buckets and
1-byte values, insert key 7 with value `[42]`, get it back, then
remove it and observe `contains` turn false. -/
theorem umap_insert_get_remove_roundtrip_witness :
    stash_umap_get (stash_umap_insert (stash_umap_create 4 1) 7 [42]).2 7
        = (StashStatus.success, some [42]) ∧
    stash_umap_contains
        (stash_umap_remove (stash_umap_insert (stash_umap_create 4 1) 7 [42]).2 7).2.2 7
      = false := by
  constructor
  · exact (umap_insert_get_remove_roundtrip (stash_umap_create 4 1) 7 [42]
      (by decide)).1 (by decide)
  · exact (umap_insert_get_remove_roundtrip
      (stash_umap_insert (stash_umap_create 4 1) 7 [42]).2 7 [42]
      (by decide)).2 (by decide)

/-- C5: on a valid IntMap whose every bucket entry is occupied, insert
of an absent key returns `OutOfMemory` and insert of a present key
returns `KeyExists`. -/
theorem umap_insert_full_table (m : stash_umap) (k : Nat) (v : List Nat)
    (hval : stash_umap_is_valid m = true)
    (hfull : ∀ e ∈ m.entries, e.occupied = true) :
    ((∀ e ∈ m.entries, e.key ≠ k) → (stash_umap_insert m k v).1 = StashStatus.outOfMemory) ∧
    ((∃ e ∈ m.entries, e.key = k) → (stash_umap_insert m k v).1 = StashStatus.keyExists) := by
  have hge : (u_stash_umap_grow m).entries = m.entries := u_stash_umap_grow_entries m
  have hgv : stash_umap_is_valid (u_stash_umap_grow m) = true :=
    u_stash_umap_grow_valid m hval
  constructor
  · intro hnk
    rw [stash_umap_insert, if_neg (not_not_intro hval)]
    have hfind : u_stash_find_free_slot (u_stash_umap_grow m) k = .full := by
      rw [u_stash_find_free_slot]
      by_cases hlen : (u_stash_umap_grow m).entries.length = 0
      · rw [if_pos (Or.inr hlen)]
      · rw [if_neg (by push_neg; exact ⟨hgv, hlen⟩)]
        rw [hge]
        exact find_free_slot_aux_full m.entries m.entries.length k hfull hnk _ _
    rw [hfind]
  · rintro ⟨e, hmem, hkey⟩
    rw [stash_umap_insert, if_neg (not_not_intro hval)]
    obtain ⟨j, hget⟩ := List.mem_iff_get?.mp hmem
    have hjlen : j < m.entries.length := by
      rw [List.get?_eq_some] at hget
      exact hget.1
    have hlen0 : 0 < m.entries.length := by omega
    have hh0 : u_stash_umap_hash_u32 k m.entries.length < m.entries.length := by
      rw [u_stash_umap_hash_u32]
      exact Nat.mod_lt _ hlen0
    have hfind : u_stash_find_free_slot (u_stash_umap_grow m) k = .keyFound := by
      rw [u_stash_find_free_slot]
      rw [if_neg (by push_neg; exact ⟨hgv, by rw [hge]; omega⟩)]
      rw [hge]
      apply find_free_slot_aux_key_found m.entries m.entries.length k rfl hfull
        _ _ hh0
      refine ⟨(m.entries.length + j - u_stash_umap_hash_u32 k m.entries.length) %
        m.entries.length, Nat.mod_lt _ hlen0, e, ?_, hkey⟩
      rw [Nat.add_mod_mod]
      have harith : u_stash_umap_hash_u32 k m.entries.length +
          (m.entries.length + j - u_stash_umap_hash_u32 k m.entries.length) =
          m.entries.length + j := by omega
      rw [harith, Nat.add_mod_left, Nat.mod_eq_of_lt hjlen]
      exact hget
    rw [hfind]

/-- Witness for C5 on a concrete one-bucket map holding key 5: insert
of absent key 7 reports out of memory; insert of present key 5 reports
that the key exists. -/
theorem umap_insert_full_table_witness :
    (stash_umap_insert ⟨[⟨5, some [9], true⟩], 1, 1, 1⟩ 7 [0]).1
        = StashStatus.outOfMemory ∧
    (stash_umap_insert ⟨[⟨5, some [9], true⟩], 1, 1, 1⟩ 5 [0]).1
        = StashStatus.keyExists := by
  constructor
  · exact (umap_insert_full_table ⟨[⟨5, some [9], true⟩], 1, 1, 1⟩ 7 [0]
      (by decide) (by decide)).1 (by decide)
  · exact (umap_insert_full_table ⟨[⟨5, some [9], true⟩], 1, 1, 1⟩ 5 [0]
      (by decide) (by decide)).2 ⟨⟨5, some [9], true⟩, by decide, rfl⟩

/-- C8: whatever `stash_umap_insert` returns, the bucket count
(`buckets.count`, the probe-space size) is unchanged; the pre-insertion
growth step can only enlarge the bucket capacity. -/
theorem umap_insert_preserves_bucket_count (m : stash_umap) (k : Nat) (v : List Nat) :
    (stash_umap_insert m k v).2.entries.length = m.entries.length ∧
    m.cap ≤ (stash_umap_insert m k v).2.cap := by
  rw [stash_umap_insert]
  split
  · exact ⟨rfl, le_refl _⟩
  · cases hfind : u_stash_find_free_slot (u_stash_umap_grow m) k with
    | keyFound =>
      simp only [hfind]
      exact ⟨by rw [u_stash_umap_grow_entries], u_stash_umap_grow_cap_le m⟩
    | full =>
      simp only [hfind]
      exact ⟨by rw [u_stash_umap_grow_entries], u_stash_umap_grow_cap_le m⟩
    | free i =>
      simp only [hfind]
      constructor
      · show ((u_stash_umap_grow m).entries.set i _).length = m.entries.length
        rw [List.length_set, u_stash_umap_grow_entries]
      · exact u_stash_umap_grow_cap_le m

/-- C10: a map created with `initialCapacity == 0` allocates 16 bucket
slots (so it is valid) but its bucket count is 0 and every insert
fails with `OutOfMemory`, returning the map unchanged. -/
theorem umap_create_zero_capacity_unusable (value_size : Nat) :
    stash_umap_is_valid (stash_umap_create 0 value_size) = true ∧
    (stash_umap_create 0 value_size).entries.length = 0 ∧
    ∀ k v, stash_umap_insert (stash_umap_create 0 value_size) k v =
      (StashStatus.outOfMemory, stash_umap_create 0 value_size) := by
  refine ⟨rfl, rfl, fun k v => ?_⟩
  rfl

/-- The `stash_reg` record, modelled at element granularity: the three
backing `stash_arr`s hold, respectively, `elem_size`-byte elements,
booleans, and `u32` identifiers, so they are modelled as typed lists
(their live prefixes). -/
structure stash_reg where
  elements : List (List Nat)
  valid_flags : List Bool
  free_ids : List Nat
  next_id : Nat
  elem_size : Nat
deriving DecidableEq, Repr

/-- `stash_reg_create`: all three backing arrays start with count 0
(the capacity argument only pre-allocates), and `next_id` starts at 1. -/
def stash_reg_create (capacity elem_size : Nat) : stash_reg :=
  { elements := [], valid_flags := [], free_ids := [], next_id := 1,
    elem_size := elem_size }

/-- The byte write performed on the element slot by `stash_reg_push`:
`memcpy(elem, element, elem_size)` for a non-`NULL` element, else
`memset(elem, 0, elem_size)`. -/
def u_stash_reg_write (element : Option (List Nat)) (elem_size : Nat) : List Nat :=
  match element with
  | some e => e.take elem_size
  | none => List.replicate elem_size 0

/-- `stash_reg_push`: pop the most recently retired identifier from
the `free_ids` stack when one exists (via `stash_arr_pop_back`, which
copies out the last element and decrements the count); otherwise
append a zero-filled slot to `elements`, append `true` to
`valid_flags`, and issue `id = next_id++`. Then write the element
bytes at index `id - 1` and raise the validity flag. -/
def stash_reg_push (reg : stash_reg) (element : Option (List Nat)) :
    Nat × stash_reg :=
  let step :=
    if reg.free_ids.length > 0 then
      (reg.free_ids.getLastD 0, { reg with free_ids := reg.free_ids.dropLast })
    else
      (reg.next_id, { reg with
        elements := reg.elements ++ [List.replicate reg.elem_size 0],
        valid_flags := reg.valid_flags ++ [true],
        next_id := reg.next_id + 1 })
  (step.1, { step.2 with
    elements := (step.2.elements.set (step.1 - 1) (u_stash_reg_write element reg.elem_size)),
    valid_flags := (step.2.valid_flags.set (step.1 - 1) true) })

/-- `stash_reg_exists`: `id != 0 && id < next_id && valid_flags[id-1]`.
The raw flag read is modelled with default `false` (under the registry
invariant the index is in bounds). -/
def stash_reg_exists (reg : stash_reg) (id : Nat) : Bool :=
  if id = 0 ∨ id ≥ reg.next_id then false
  else (reg.valid_flags.get? (id - 1)).getD false

/-- `stash_reg_pop`: for a live id, copy the element out, push the id
onto the `free_ids` stack, and clear its validity flag; the element
bytes themselves are left in place. -/
def stash_reg_pop (reg : stash_reg) (id : Nat) :
    Bool × Option (List Nat) × stash_reg :=
  if ¬ stash_reg_exists reg id = true then (false, none, reg)
  else
    (true, some (((reg.elements.get? (id - 1)).getD []).take reg.elem_size),
      { reg with
        free_ids := reg.free_ids ++ [id],
        valid_flags := (reg.valid_flags.set (id - 1) false) })

/-- `stash_reg_get`: a reference to the element slot iff the id is live. -/
def stash_reg_get (reg : stash_reg) (id : Nat) : Option (List Nat) :=
  if stash_reg_exists reg id then reg.elements.get? (id - 1) else none

/-- The registry representation invariant (claim C4's clauses plus the
bookkeeping needed to make them inductive): the element and flag
arrays have equal counts, `next_id` is one past the flag count, the
free-id stack has no duplicates, and every retired id is nonzero,
below `next_id`, and has its validity flag cleared. -/
def RegInv (reg : stash_reg) : Prop :=
  reg.elements.length = reg.valid_flags.length ∧
  reg.valid_flags.length + 1 = reg.next_id ∧
  reg.free_ids.Nodup ∧
  ∀ id ∈ reg.free_ids,
    id ≠ 0 ∧ id < reg.next_id ∧ (reg.valid_flags.get? (id - 1)).getD false = false

theorem getLastD_eq_getLast (l : List Nat) (h : l ≠ []) : l.getLastD 0 = l.getLast h := by
  cases l with
  | nil => exact absurd rfl h
  | cons a as => simp [List.getLastD_eq_getLast?, List.getLast?_eq_getLast]

theorem getLastD_mem (l : List Nat) (h : l ≠ []) : l.getLastD 0 ∈ l := by
  rw [getLastD_eq_getLast l h]
  exact List.getLast_mem h

/-- C4: `stash_reg_create` establishes and `stash_reg_push` /
`stash_reg_pop` preserve the registry invariant (equal element and
flag counts; every retired id nonzero, below `next_id`, with a cleared
flag); and the live ids are exactly the ids in `[1, next_id)` whose
validity flag is set. -/
theorem reg_ops_preserve_invariant :
    (∀ c es, RegInv (stash_reg_create c es)) ∧
    (∀ reg e, RegInv reg → RegInv (stash_reg_push reg e).2) ∧
    (∀ reg id, RegInv reg → RegInv (stash_reg_pop reg id).2.2) ∧
    (∀ reg id, stash_reg_exists reg id = true ↔
      1 ≤ id ∧ id < reg.next_id ∧ (reg.valid_flags.get? (id - 1)).getD false = true) := by
  refine ⟨fun c es => ?_, fun reg e hinv => ?_, fun reg id hinv => ?_, fun reg id => ?_⟩
  · simp [RegInv, stash_reg_create]
  · obtain ⟨h1, h2, h3, h4⟩ := hinv
    by_cases hf : reg.free_ids.length > 0
    · have hne : reg.free_ids ≠ [] := by
        intro h0
        rw [h0] at hf
        simp at hf
      have hmem0 : reg.free_ids.getLastD 0 ∈ reg.free_ids := getLastD_mem _ hne
      obtain ⟨hz0, hlt0, hfl0⟩ := h4 _ hmem0
      have hnotin : reg.free_ids.getLastD 0 ∉ reg.free_ids.dropLast := by
        rw [getLastD_eq_getLast _ hne]
        have hcat : (reg.free_ids.dropLast ++ [reg.free_ids.getLast hne]).Nodup := by
          rw [List.dropLast_concat_getLast hne]
          exact h3
        simp [List.nodup_append] at hcat
        tauto
      simp only [stash_reg_push, if_pos hf, RegInv]
      refine ⟨?_, ?_, ?_, ?_⟩
      · simp [List.length_set, h1]
      · simp [List.length_set, h2]
      · exact List.Nodup.sublist (List.dropLast_sublist _) h3
      · intro id hmem
        have hmem' : id ∈ reg.free_ids := (List.dropLast_sublist _).subset hmem
        obtain ⟨hz, hlt, hfl⟩ := h4 id hmem'
        have hne_id : id ≠ reg.free_ids.getLastD 0 := fun hcontra =>
          hnotin (hcontra ▸ hmem)
        refine ⟨hz, hlt, ?_⟩
        rw [List.get?_set_ne _ _ (by omega : reg.free_ids.getLastD 0 - 1 ≠ id - 1)]
        exact hfl
    · have hfe : reg.free_ids = [] := by
        rw [← List.length_eq_zero]
        omega
      simp only [stash_reg_push, if_neg hf, RegInv]
      refine ⟨?_, ?_, ?_, ?_⟩
      · simp [List.length_set, List.length_append, h1]
      · simp only [List.length_set, List.length_append, List.length_singleton]
        omega
      · simpa using h3
      · intro id hmem
        rw [hfe] at hmem
        simp at hmem
  · obtain ⟨h1, h2, h3, h4⟩ := hinv
    by_cases hex : stash_reg_exists reg id = true
    · have hfact : id ≠ 0 ∧ id < reg.next_id ∧
          (reg.valid_flags.get? (id - 1)).getD false = true := by
        rw [stash_reg_exists] at hex
        by_cases hc : id = 0 ∨ id ≥ reg.next_id
        · rw [if_pos hc] at hex
          simp at hex
        · rw [if_neg hc] at hex
          push_neg at hc
          exact ⟨hc.1, by omega, hex⟩
      obtain ⟨hz, hlt, hfl⟩ := hfact
      have hnotin : id ∉ reg.free_ids := by
        intro hcontra
        obtain ⟨-, -, hflc⟩ := h4 id hcontra
        rw [hflc] at hfl
        simp at hfl
      rw [stash_reg_pop, if_neg (not_not_intro hex)]
      simp only [RegInv]
      refine ⟨?_, ?_, ?_, ?_⟩
      · simp [List.length_set, h1]
      · simp [List.length_set, h2]
      · rw [List.nodup_append]
        refine ⟨h3, by simp, by simpa using hnotin⟩
      · intro id' hmem'
        rcases List.mem_append.mp hmem' with hin | hin
        · obtain ⟨hz', hlt', hfl'⟩ := h4 id' hin
          have hne' : id' ≠ id := fun hcontra => hnotin (hcontra ▸ hin)
          refine ⟨hz', hlt', ?_⟩
          rw [List.get?_set_ne _ _ (by omega : id - 1 ≠ id' - 1)]
          exact hfl'
        · have hid' : id' = id := by simpa using hin
          rw [hid']
          refine ⟨hz, hlt, ?_⟩
          have hidx : id - 1 < reg.valid_flags.length := by omega
          rw [List.get?_set_eq_of_lt _ hidx]
          rfl
    · rw [stash_reg_pop, if_pos hex]
      exact ⟨h1, h2, h3, h4⟩
  · rw [stash_reg_exists]
    by_cases hc : id = 0 ∨ id ≥ reg.next_id
    · rw [if_pos hc]
      constructor
      · intro habs
        simp at habs
      · rintro ⟨ha, hb, -⟩
        rcases hc with h0 | hge <;> omega
    · rw [if_neg hc]
      push_neg at hc
      constructor
      · intro h
        exact ⟨by omega, hc.2, h⟩
      · rintro ⟨-, -, h⟩
        exact h

instance (reg : stash_reg) : Decidable (RegInv reg) := by
  unfold RegInv
  infer_instance

/-- Witness for C4: one push on a freshly created registry preserves
the invariant. -/
theorem reg_ops_preserve_invariant_witness :
    RegInv (stash_reg_push (stash_reg_create 1 4) none).2 :=
  reg_ops_preserve_invariant.2.1 (stash_reg_create 1 4) none (by decide)

/-- C9: under the registry invariant, `stash_reg_push` returns a
non-zero identifier: the most recently retired one (the top of the
`free_ids` stack, which it pops) when one is available, else the
current `next_id`, which is then incremented. In particular the
sequence push, push, pop(first id), push on a fresh registry yields
ids 1, 2 and then reissues 1. -/
theorem reg_push_id_allocation (reg : stash_reg) (e : Option (List Nat))
    (hinv : RegInv reg) :
    ((stash_reg_push reg e).1 ≠ 0 ∧
     (reg.free_ids ≠ [] →
       (stash_reg_push reg e).1 = reg.free_ids.getLastD 0 ∧
       (stash_reg_push reg e).2.free_ids = reg.free_ids.dropLast ∧
       (stash_reg_push reg e).2.next_id = reg.next_id) ∧
     (reg.free_ids = [] →
       (stash_reg_push reg e).1 = reg.next_id ∧
       (stash_reg_push reg e).2.next_id = reg.next_id + 1)) ∧
    ((stash_reg_push (stash_reg_create 1 4) none).1 = 1 ∧
     (stash_reg_push (stash_reg_push (stash_reg_create 1 4) none).2
        (some [20, 0, 0, 0])).1 = 2 ∧
     (stash_reg_push (stash_reg_pop (stash_reg_push (stash_reg_push
        (stash_reg_create 1 4) none).2 (some [20, 0, 0, 0])).2 1).2.2
        (some [30, 0, 0, 0])).1 = 1) := by
  obtain ⟨h1, h2, h3, h4⟩ := hinv
  refine ⟨?_, by decide, by decide, by decide⟩
  by_cases hf : reg.free_ids.length > 0
  · have hne : reg.free_ids ≠ [] := by
      intro h0
      rw [h0] at hf
      simp at hf
    have hmem0 : reg.free_ids.getLastD 0 ∈ reg.free_ids := getLastD_mem _ hne
    obtain ⟨hz0, -, -⟩ := h4 _ hmem0
    have hpush1 : (stash_reg_push reg e).1 = reg.free_ids.getLastD 0 := by
      simp only [stash_reg_push, if_pos hf]
    have hfree : (stash_reg_push reg e).2.free_ids = reg.free_ids.dropLast := by
      simp only [stash_reg_push, if_pos hf]
    have hnid : (stash_reg_push reg e).2.next_id = reg.next_id := by
      simp only [stash_reg_push, if_pos hf]
    exact ⟨by rw [hpush1]; exact hz0, fun _ => ⟨hpush1, hfree, hnid⟩,
      fun habs => absurd habs hne⟩
  · have hfe : reg.free_ids = [] := by
      rw [← List.length_eq_zero]
      omega
    have hpush1 : (stash_reg_push reg e).1 = reg.next_id := by
      simp only [stash_reg_push, if_neg hf]
    have hnid : (stash_reg_push reg e).2.next_id = reg.next_id + 1 := by
      simp only [stash_reg_push, if_neg hf]
    exact ⟨by rw [hpush1]; omega, fun habs => absurd hfe habs,
      fun _ => ⟨hpush1, hnid⟩⟩

/-- Witness for C9: the first push on a fresh registry returns a
non-zero identifier. -/
theorem reg_push_id_allocation_witness :
    (stash_reg_push (stash_reg_create 1 4) none).1 ≠ 0 :=
  ((reg_push_id_allocation (stash_reg_create 1 4) none (by decide)).1).1
